import Mathlib

/-!
Shallow embedding of the ATTiny I2C register-access protocol engine
(`daemon/attiny_i2c.py`): the bit-serial CRC-8 checksum, the value
codecs, and the retry/verification transaction engine, together with
proofs of the specified properties.

The bus transport (`smbus`) is modelled as an oracle giving, per attempt
index, either a transport exception or the list of bytes returned by the
block read; block writes are likewise given per-attempt outcomes.  Every
transport interaction is recorded in an event trace so that framing and
session (open/close) behaviour can be stated.
-/

namespace ATTiny

/-- Fixed CRC polynomial constant `_POLYNOME = 0x31` from the source. -/
def POLYNOME : Nat := 0x31

/-- One bit step of `addCrc` exactly as in the source: branch on
`(n ^ crc) & 0x80`, shift the accumulator left (XORing the polynomial in
the taken branch), shift the input left; no per-step masking. -/
def addCrcStep (s : Nat × Nat) : Nat × Nat :=
  if (s.2 ^^^ s.1) &&& 0x80 ≠ 0 then ((s.1 <<< 1) ^^^ POLYNOME, s.2 <<< 1)
  else (s.1 <<< 1, s.2 <<< 1)

/-- `ATTiny.addCrc(crc, n)`: eight bit steps, then the accumulator is
masked to 8 bits (`return crc & 0xFF`). -/
def addCrc (crc n : Nat) : Nat := (addCrcStep^[8] (crc, n)).1 &&& 0xFF

/-- `ATTiny.calcCRC(register, read, len)`: fold the register address
first, then `read[0] .. read[len-1]` in order. -/
def calcCRC (register : Nat) (read : List Nat) (len : Nat) : Nat :=
  (List.range len).foldl (fun crc i => addCrc crc (read.getD i 0)) (addCrc 0 register)

/-- Modelled from the spec's algorithm text (spec §4.1): one bit step in
which the branch condition is the XOR of the accumulator's top bit and
the input's top bit, and the accumulator is masked to 8 bits after every
bit step; the input byte is shifted left without re-masking. -/
def specCrcStep (s : Nat × Nat) : Nat × Nat :=
  if s.1.testBit 7 != s.2.testBit 7 then
    (((s.1 <<< 1) ^^^ POLYNOME) &&& 0xFF, s.2 <<< 1)
  else ((s.1 <<< 1) &&& 0xFF, s.2 <<< 1)

/-- Spec's per-byte fold: eight per-step-masked bit steps. -/
def specAddCrc (crc n : Nat) : Nat := (specCrcStep^[8] (crc, n)).1

/-- Spec's whole-frame CRC: accumulator starts at 0, register address is
folded first, then each payload byte in order. -/
def specCRC (register : Nat) (p : List Nat) : Nat :=
  p.foldl specAddCrc (specAddCrc 0 register)

lemma and_two_pow_ne_zero_iff (x i : Nat) : x &&& 2 ^ i ≠ 0 ↔ x.testBit i = true := by
  rw [Nat.and_two_pow]
  cases h : x.testBit i <;> simp [h]

lemma testBit7_mod256 (x : Nat) : (x % 256).testBit 7 = x.testBit 7 := by
  have h : (256 : Nat) = 2 ^ 8 := by norm_num
  rw [h, Nat.testBit_mod_two_pow]
  simp

lemma xor_mod_two_pow (x y k : Nat) : (x ^^^ y) % 2 ^ k = x % 2 ^ k ^^^ y % 2 ^ k := by
  apply Nat.eq_of_testBit_eq
  intro i
  simp only [Nat.testBit_mod_two_pow, Nat.testBit_xor]
  by_cases h : i < k <;> simp [h]

lemma and255 (x : Nat) : x &&& 0xFF = x % 256 := by
  have h := Nat.and_pow_two_sub_one_eq_mod x 8
  norm_num at h
  exact h

lemma xor_mod256 (x y : Nat) : (x ^^^ y) % 256 = x % 256 ^^^ y % 256 := by
  have h256 : (256 : Nat) = 2 ^ 8 := by norm_num
  rw [h256]
  exact xor_mod_two_pow x y 8

lemma testBit7_iff (x : Nat) : x &&& 0x80 ≠ 0 ↔ x.testBit 7 = true := by
  have h80 : (0x80 : Nat) = 2 ^ 7 := by norm_num
  rw [h80]
  exact and_two_pow_ne_zero_iff x 7

lemma cond_sim (c n : Nat) :
    (((c % 256).testBit 7 != n.testBit 7) = true) ↔ (n ^^^ c) &&& 0x80 ≠ 0 := by
  rw [testBit7_mod256, testBit7_iff, Nat.testBit_xor]
  cases hc : c.testBit 7 <;> cases hn : n.testBit 7 <;> simp [hc, hn]

lemma step_sim (c n : Nat) :
    specCrcStep (c % 256, n) = ((addCrcStep (c, n)).1 % 256, (addCrcStep (c, n)).2) := by
  by_cases h : (n ^^^ c) &&& 0x80 ≠ 0
  · have hb : ((c % 256).testBit 7 != n.testBit 7) = true := (cond_sim c n).mpr h
    have ha : addCrcStep (c, n) = ((c <<< 1) ^^^ POLYNOME, n <<< 1) := by
      unfold addCrcStep
      rw [if_pos h]
    have hs : specCrcStep (c % 256, n) =
        ((((c % 256) <<< 1) ^^^ POLYNOME) &&& 0xFF, n <<< 1) := by
      unfold specCrcStep
      rw [if_pos hb]
    rw [ha, hs]
    simp only [Prod.mk.injEq]
    refine ⟨?_, trivial⟩
    rw [and255, Nat.shiftLeft_eq, Nat.shiftLeft_eq]
    simp only [pow_one]
    rw [xor_mod256, xor_mod256]
    congr 1
    omega
  · have hb : ¬ (((c % 256).testBit 7 != n.testBit 7) = true) := fun hbc =>
      h ((cond_sim c n).mp hbc)
    have ha : addCrcStep (c, n) = (c <<< 1, n <<< 1) := by
      unfold addCrcStep
      rw [if_neg h]
    have hs : specCrcStep (c % 256, n) = (((c % 256) <<< 1) &&& 0xFF, n <<< 1) := by
      unfold specCrcStep
      rw [if_neg hb]
    rw [ha, hs]
    simp only [Prod.mk.injEq]
    refine ⟨?_, trivial⟩
    rw [and255, Nat.shiftLeft_eq, Nat.shiftLeft_eq]
    simp only [pow_one]
    omega

lemma iter_sim (k c n : Nat) :
    specCrcStep^[k] (c % 256, n) =
      ((addCrcStep^[k] (c, n)).1 % 256, (addCrcStep^[k] (c, n)).2) := by
  induction k with
  | zero => simp
  | succ k ih =>
    rw [Function.iterate_succ_apply', Function.iterate_succ_apply', ih, step_sim]

lemma specAddCrc_eq_addCrc_of_mod (c n : Nat) : specAddCrc (c % 256) n = addCrc c n := by
  unfold specAddCrc addCrc
  rw [iter_sim, and255]

lemma specAddCrc_eq_addCrc (c n : Nat) (hc : c < 256) : specAddCrc c n = addCrc c n := by
  have := specAddCrc_eq_addCrc_of_mod c n
  rwa [Nat.mod_eq_of_lt hc] at this

lemma addCrc_lt (c n : Nat) : addCrc c n < 256 := by
  unfold addCrc
  have : (addCrcStep^[8] (c, n)).1 &&& 0xFF ≤ 0xFF := Nat.and_le_right
  omega

lemma foldl_range_getD (l : List Nat) (f : Nat → Nat → Nat) (init : Nat) :
    (List.range l.length).foldl (fun c i => f c (l.getD i 0)) init = l.foldl f init := by
  induction l generalizing init with
  | nil => simp
  | cons a t ih =>
    simp only [List.length_cons, List.range_succ_eq_map, List.foldl_cons, List.foldl_map,
      List.getD_cons_zero, List.getD_cons_succ]
    exact ih (f init a)

lemma foldl_spec_eq_foldl_addCrc (p : List Nat) (c : Nat) (hc : c < 256) :
    p.foldl specAddCrc c = p.foldl addCrc c := by
  induction p generalizing c with
  | nil => rfl
  | cons b t ih =>
    simp only [List.foldl_cons]
    rw [specAddCrc_eq_addCrc c b hc]
    exact ih (addCrc c b) (addCrc_lt c b)

lemma foldl_addCrc_lt (p : List Nat) (c : Nat) (hc : c < 256) : p.foldl addCrc c < 256 := by
  induction p generalizing c with
  | nil => exact hc
  | cons b t ih => exact ih (addCrc c b) (addCrc_lt c b)

/-- Claim C1: for every register address byte `a` and every finite byte
sequence `p`, `calcCRC a p (length p)` equals the spec's bit-serial
CRC-8 (accumulator starts at 0, the register address is folded first and
then each payload byte in order, each byte processed MSB-first, with the
accumulator masked to 8 bits and the input shifted left without
re-masking), and the result is a single byte. -/
theorem C1_calcCRC_matches_spec (a : Nat) (p : List Nat)
    (ha : a < 256) (hp : ∀ b ∈ p, b < 256) :
    calcCRC a p p.length = specCRC a p ∧ calcCRC a p p.length < 256 := by
  unfold calcCRC specCRC
  rw [foldl_range_getD]
  have h0 : specAddCrc 0 a = addCrc 0 a := specAddCrc_eq_addCrc 0 a (by norm_num)
  rw [h0]
  constructor
  · exact (foldl_spec_eq_foldl_addCrc p (addCrc 0 a) (addCrc_lt 0 a)).symm
  · exact foldl_addCrc_lt p (addCrc 0 a) (addCrc_lt 0 a)

/-- Bus transport events, in the order the engine performs them: session
creation (`smbus.SMBus(...)`), session close (`bus.close()`), a block
write (`bus.write_i2c_block_data(address, register, data)`) and a block
read request (`bus.read_i2c_block_data(address, register, count)`). -/
inductive Ev where
  | openBus : Ev
  | closeBus : Ev
  | wblock : Nat → Nat → List Nat → Ev
  | rblock : Nat → Nat → Nat → Ev
deriving DecidableEq

/-- Device handle, from `ATTiny.__init__`: bus number, peripheral
address, inter-transaction delay, maximum retry count. -/
structure Handle where
  bus_number : Nat
  address : Nat
  time_const : Nat
  num_retries : Nat

/-- Transport read oracle: for each attempt index, either a transport
exception or the byte list the block read returns. -/
abbrev Resp := Nat → Except Unit (List Nat)

/-- Transport write oracle: for each attempt index, whether the block
write raises or succeeds. -/
abbrev WResp := Nat → Except Unit Unit

/-- Decoding of `int.from_bytes(read[0:2], byteorder='little',
signed=True)` on two bytes. -/
def decode16 (b0 b1 : Nat) : Int :=
  if b0 + 256 * b1 < 32768 then ((b0 : Int) + 256 * (b1 : Int))
  else ((b0 : Int) + 256 * (b1 : Int)) - 65536

/-- Encoding of `value.to_bytes(2, byteorder='little', signed=True)`:
`none` models the `OverflowError` raised for values outside the signed
16-bit range, before any bus interaction. -/
def encode16 (v : Int) : Option (List Nat) :=
  if -32768 ≤ v ∧ v ≤ 32767 then
    some [(v % 65536).toNat % 256, (v % 65536).toNat / 256]
  else none

/-- The 8-bit path carries the raw value byte: `arg_list = [value, crc]`
on write and `val = read[0]` on read, so the 8-bit codec is the
identity on bytes; the encoded payload is the one-byte list. -/
def encode8 (v : Nat) : List Nat := [v]

/-- The 8-bit decode: `val = read[0]`. -/
def decode8 (read : List Nat) : Nat := read.getD 0 0

/-- Decoding of `int.from_bytes(read[0:3], byteorder='little',
signed=False)` on three bytes (the uptime counter). -/
def decodeUptime (b0 b1 b2 : Nat) : Nat := b0 + 256 * b1 + 65536 * b2

/-- `ATTiny.get_8bit_value` retry loop, recursing over the remaining
attempts (`fuel`), with `attempt` the absolute attempt index fed to the
oracle.  Each attempt opens a session and issues a 2-byte block read; on
a transport exception the `except` handler only logs, so no close event
occurs; on a received frame the session is closed, and the value byte is
returned exactly when the trailing checksum byte matches
`calcCRC register read 1`.  Fuel exhaustion returns the `0xFFFF`
marker. -/
def get8Go (a register : Nat) (resp : Resp) : Nat → Nat → Nat × List Ev
  | _, 0 => (0xFFFF, [])
  | attempt, fuel+1 =>
    match resp attempt with
    | .error _ =>
        let r := get8Go a register resp (attempt+1) fuel
        (r.1, Ev.openBus :: Ev.rblock a register 2 :: r.2)
    | .ok read =>
        if read.getD 1 0 = calcCRC register read 1 then
          (read.getD 0 0, [Ev.openBus, Ev.rblock a register 2, Ev.closeBus])
        else
          let r := get8Go a register resp (attempt+1) fuel
          (r.1, Ev.openBus :: Ev.rblock a register 2 :: Ev.closeBus :: r.2)

/-- `ATTiny.get_8bit_value(register)` with the transport oracle. -/
def get_8bit_value (h : Handle) (register : Nat) (resp : Resp) : Nat × List Ev :=
  get8Go h.address register resp 0 h.num_retries

/-- `ATTiny.get_16bit_value` retry loop: 3-byte block read, signed
little-endian decode of the first two bytes, close, then the value is
returned exactly when `read[2]` matches `calcCRC register read 2`.
Fuel exhaustion returns the `0xFFFFFFFF` marker. -/
def get16Go (a register : Nat) (resp : Resp) : Nat → Nat → Int × List Ev
  | _, 0 => (0xFFFFFFFF, [])
  | attempt, fuel+1 =>
    match resp attempt with
    | .error _ =>
        let r := get16Go a register resp (attempt+1) fuel
        (r.1, Ev.openBus :: Ev.rblock a register 3 :: r.2)
    | .ok read =>
        if read.getD 2 0 = calcCRC register read 2 then
          (decode16 (read.getD 0 0) (read.getD 1 0),
            [Ev.openBus, Ev.rblock a register 3, Ev.closeBus])
        else
          let r := get16Go a register resp (attempt+1) fuel
          (r.1, Ev.openBus :: Ev.rblock a register 3 :: Ev.closeBus :: r.2)

/-- `ATTiny.get_16bit_value(register)` with the transport oracle. -/
def get_16bit_value (h : Handle) (register : Nat) (resp : Resp) : Int × List Ev :=
  get16Go h.address register resp 0 h.num_retries

/-- Register address `REG_VERSION` from the source. -/
def REG_VERSION : Nat := 0x80

/-- Register address `REG_UPTIME` from the source. -/
def REG_UPTIME : Nat := 0x85

/-- `ATTiny.get_version` retry loop: 5-byte block read from
`REG_VERSION`, close, then `(read[2], read[1], read[0])` is returned
exactly when `read[4]` matches `calcCRC REG_VERSION read 4`.  Fuel
exhaustion returns the `(0xFFFF, 0xFFFF, 0xFFFF)` triplet. -/
def getVersionGo (a : Nat) (resp : Resp) : Nat → Nat → (Nat × Nat × Nat) × List Ev
  | _, 0 => ((0xFFFF, 0xFFFF, 0xFFFF), [])
  | attempt, fuel+1 =>
    match resp attempt with
    | .error _ =>
        let r := getVersionGo a resp (attempt+1) fuel
        (r.1, Ev.openBus :: Ev.rblock a REG_VERSION 5 :: r.2)
    | .ok read =>
        if read.getD 4 0 = calcCRC REG_VERSION read 4 then
          ((read.getD 2 0, read.getD 1 0, read.getD 0 0),
            [Ev.openBus, Ev.rblock a REG_VERSION 5, Ev.closeBus])
        else
          let r := getVersionGo a resp (attempt+1) fuel
          (r.1, Ev.openBus :: Ev.rblock a REG_VERSION 5 :: Ev.closeBus :: r.2)

/-- `ATTiny.get_version()` with the transport oracle. -/
def get_version (h : Handle) (resp : Resp) : (Nat × Nat × Nat) × List Ev :=
  getVersionGo h.address resp 0 h.num_retries

/-- `ATTiny.get_uptime` retry loop: 5-byte block read from `REG_UPTIME`,
close, then the unsigned little-endian value of `read[0:3]` is returned
exactly when `read[4]` matches `calcCRC REG_UPTIME read 4`.  Fuel
exhaustion returns the `0xFFFFFFFFFFFF` marker. -/
def getUptimeGo (a : Nat) (resp : Resp) : Nat → Nat → Nat × List Ev
  | _, 0 => (0xFFFFFFFFFFFF, [])
  | attempt, fuel+1 =>
    match resp attempt with
    | .error _ =>
        let r := getUptimeGo a resp (attempt+1) fuel
        (r.1, Ev.openBus :: Ev.rblock a REG_UPTIME 5 :: r.2)
    | .ok read =>
        if read.getD 4 0 = calcCRC REG_UPTIME read 4 then
          (decodeUptime (read.getD 0 0) (read.getD 1 0) (read.getD 2 0),
            [Ev.openBus, Ev.rblock a REG_UPTIME 5, Ev.closeBus])
        else
          let r := getUptimeGo a resp (attempt+1) fuel
          (r.1, Ev.openBus :: Ev.rblock a REG_UPTIME 5 :: Ev.closeBus :: r.2)

/-- `ATTiny.get_uptime()` with the transport oracle. -/
def get_uptime (h : Handle) (resp : Resp) : Nat × List Ev :=
  getUptimeGo h.address resp 0 h.num_retries

/-- `ATTiny.set_8bit_value` retry loop.  `arg_list = [value, crc]` with
`crc = addCrc (addCrc 0 register) value` is computed before the loop;
each attempt opens a session and sends the block write; if the write
raises, the `except` handler only logs (no close); otherwise the session
is closed and `get_8bit_value` (with its own retry budget `numR` and the
nested oracle `rresp attempt`) is compared to `value`, returning `true`
on a match.  Fuel exhaustion returns `false`. -/
def set8Go (a register value : Nat) (wres : WResp) (rresp : Nat → Resp)
    (numR : Nat) : Nat → Nat → Bool × List Ev
  | _, 0 => (false, [])
  | attempt, fuel+1 =>
    let crc := addCrc (addCrc 0 register) value
    let pre := [Ev.openBus, Ev.wblock a register [value, crc]]
    match wres attempt with
    | .error _ =>
        let r := set8Go a register value wres rresp numR (attempt+1) fuel
        (r.1, pre ++ r.2)
    | .ok _ =>
        let g := get8Go a register (rresp attempt) 0 numR
        if g.1 = value then (true, pre ++ [Ev.closeBus] ++ g.2)
        else
          let r := set8Go a register value wres rresp numR (attempt+1) fuel
          (r.1, pre ++ [Ev.closeBus] ++ g.2 ++ r.2)

/-- `ATTiny.set_8bit_value(register, value)` with the transport
oracles.  Note the source performs no range check on `value`. -/
def set_8bit_value (h : Handle) (register value : Nat) (wres : WResp)
    (rresp : Nat → Resp) : Bool × List Ev :=
  set8Go h.address register value wres rresp h.num_retries 0 h.num_retries

/-- `ATTiny.set_16bit_value` retry loop, after the encoding step
produced the two payload bytes `vals`; `arg_list = [vals[0], vals[1],
crc]` with `crc = calcCRC register vals 2`. -/
def set16Go (a register : Nat) (value : Int) (vals : List Nat) (wres : WResp)
    (rresp : Nat → Resp) (numR : Nat) : Nat → Nat → Bool × List Ev
  | _, 0 => (false, [])
  | attempt, fuel+1 =>
    let crc := calcCRC register vals 2
    let pre := [Ev.openBus, Ev.wblock a register [vals.getD 0 0, vals.getD 1 0, crc]]
    match wres attempt with
    | .error _ =>
        let r := set16Go a register value vals wres rresp numR (attempt+1) fuel
        (r.1, pre ++ r.2)
    | .ok _ =>
        let g := get16Go a register (rresp attempt) 0 numR
        if g.1 = value then (true, pre ++ [Ev.closeBus] ++ g.2)
        else
          let r := set16Go a register value vals wres rresp numR (attempt+1) fuel
          (r.1, pre ++ [Ev.closeBus] ++ g.2 ++ r.2)

/-- `ATTiny.set_16bit_value(register, value)`: the encoding
`value.to_bytes(2, 'little', signed=True)` happens before the retry
loop; an out-of-range value raises `OverflowError` there, modelled as
`none`, with no bus interaction at all. -/
def set_16bit_value (h : Handle) (register : Nat) (value : Int) (wres : WResp)
    (rresp : Nat → Resp) : Option (Bool × List Ev) :=
  match encode16 value with
  | none => none
  | some vals => some (set16Go h.address register value vals wres rresp h.num_retries
      0 h.num_retries)

/-- Whether an event is a session open. -/
def isOpenEv : Ev → Bool
  | Ev.openBus => true
  | _ => false

/-- Whether an event is a session close. -/
def isCloseEv : Ev → Bool
  | Ev.closeBus => true
  | _ => false

/-- Whether an event is a block read request. -/
def isReadEv : Ev → Bool
  | Ev.rblock _ _ _ => true
  | _ => false

/-- Number of sessions opened in a trace. -/
def countOpens (tr : List Ev) : Nat := tr.countP isOpenEv

/-- Number of sessions closed in a trace. -/
def countCloses (tr : List Ev) : Nat := tr.countP isCloseEv

/-- Number of block read requests in a trace. -/
def countReads (tr : List Ev) : Nat := tr.countP isReadEv

/-- The block-write frame carried by an event, if any. -/
def evWrite : Ev → Option (Nat × Nat × List Nat)
  | Ev.wblock a r d => some (a, r, d)
  | _ => none

/-- All block-write frames of a trace: `(device address, register,
data)` triples. -/
def writesOf (tr : List Ev) : List (Nat × Nat × List Nat) := tr.filterMap evWrite

lemma writesOf_append (l1 l2 : List Ev) :
    writesOf (l1 ++ l2) = writesOf l1 ++ writesOf l2 := by
  unfold writesOf
  exact List.filterMap_append l1 l2 evWrite

lemma get8Go_no_writes (a register : Nat) (resp : Resp) (attempt fuel : Nat) :
    ∀ e ∈ (get8Go a register resp attempt fuel).2, evWrite e = none := by
  induction fuel generalizing attempt with
  | zero => intro e he; cases he
  | succ fuel ih =>
    intro e he
    cases hr : resp attempt with
    | error u =>
      simp only [get8Go, hr, List.mem_cons] at he
      rcases he with rfl | rfl | he
      · rfl
      · rfl
      · exact ih (attempt+1) e he
    | ok read =>
      by_cases hc : read.getD 1 0 = calcCRC register read 1
      · simp only [get8Go, hr, if_pos hc, List.mem_cons, List.not_mem_nil, or_false] at he
        rcases he with rfl | rfl | rfl
        · rfl
        · rfl
        · rfl
      · simp only [get8Go, hr, if_neg hc, List.mem_cons] at he
        rcases he with rfl | rfl | rfl | he
        · rfl
        · rfl
        · rfl
        · exact ih (attempt+1) e he

lemma get16Go_no_writes (a register : Nat) (resp : Resp) (attempt fuel : Nat) :
    ∀ e ∈ (get16Go a register resp attempt fuel).2, evWrite e = none := by
  induction fuel generalizing attempt with
  | zero => intro e he; cases he
  | succ fuel ih =>
    intro e he
    cases hr : resp attempt with
    | error u =>
      simp only [get16Go, hr, List.mem_cons] at he
      rcases he with rfl | rfl | he
      · rfl
      · rfl
      · exact ih (attempt+1) e he
    | ok read =>
      by_cases hc : read.getD 2 0 = calcCRC register read 2
      · simp only [get16Go, hr, if_pos hc, List.mem_cons, List.not_mem_nil, or_false] at he
        rcases he with rfl | rfl | rfl
        · rfl
        · rfl
        · rfl
      · simp only [get16Go, hr, if_neg hc, List.mem_cons] at he
        rcases he with rfl | rfl | rfl | he
        · rfl
        · rfl
        · rfl
        · exact ih (attempt+1) e he

lemma calcCRC_one (register v : Nat) :
    calcCRC register [v] 1 = addCrc (addCrc 0 register) v := rfl

lemma set8Go_events (a register value : Nat) (wres : WResp) (rresp : Nat → Resp)
    (numR attempt fuel : Nat) :
    ∀ e ∈ (set8Go a register value wres rresp numR attempt fuel).2,
      evWrite e = none ∨
        e = Ev.wblock a register [value, addCrc (addCrc 0 register) value] := by
  induction fuel generalizing attempt with
  | zero => intro e he; cases he
  | succ fuel ih =>
    intro e he
    cases hr : wres attempt with
    | error u =>
      simp only [set8Go, hr, List.cons_append, List.nil_append, List.mem_cons] at he
      rcases he with rfl | rfl | he
      · exact Or.inl rfl
      · exact Or.inr rfl
      · exact ih (attempt+1) e he
    | ok u =>
      by_cases hg : (get8Go a register (rresp attempt) 0 numR).1 = value
      · simp only [set8Go, hr, if_pos hg, List.append_assoc, List.cons_append,
          List.nil_append, List.mem_cons, List.mem_append] at he
        rcases he with rfl | rfl | rfl | he
        · exact Or.inl rfl
        · exact Or.inr rfl
        · exact Or.inl rfl
        · exact Or.inl (get8Go_no_writes a register (rresp attempt) 0 numR e he)
      · simp only [set8Go, hr, if_neg hg, List.append_assoc, List.cons_append,
          List.nil_append, List.mem_cons, List.mem_append] at he
        rcases he with rfl | rfl | rfl | he | he
        · exact Or.inl rfl
        · exact Or.inr rfl
        · exact Or.inl rfl
        · exact Or.inl (get8Go_no_writes a register (rresp attempt) 0 numR e he)
        · exact ih (attempt+1) e he

lemma set8Go_frames (a register value : Nat) (wres : WResp) (rresp : Nat → Resp)
    (numR attempt fuel : Nat) :
    ∀ f ∈ writesOf (set8Go a register value wres rresp numR attempt fuel).2,
      f = (a, register, [value, calcCRC register [value] 1]) := by
  intro f hf
  unfold writesOf at hf
  rcases List.mem_filterMap.mp hf with ⟨e, he, hsome⟩
  rcases set8Go_events a register value wres rresp numR attempt fuel e he with hn | rfl
  · rw [hn] at hsome
    cases hsome
  · rw [calcCRC_one]
    cases hsome
    rfl

lemma calcCRC_two_getD (register : Nat) (vals : List Nat) :
    calcCRC register vals 2 = calcCRC register [vals.getD 0 0, vals.getD 1 0] 2 := by
  unfold calcCRC
  simp [List.range_succ]

lemma set16Go_events (a register : Nat) (value : Int) (vals : List Nat) (wres : WResp)
    (rresp : Nat → Resp) (numR attempt fuel : Nat) :
    ∀ e ∈ (set16Go a register value vals wres rresp numR attempt fuel).2,
      evWrite e = none ∨
        e = Ev.wblock a register [vals.getD 0 0, vals.getD 1 0, calcCRC register vals 2] := by
  induction fuel generalizing attempt with
  | zero => intro e he; cases he
  | succ fuel ih =>
    intro e he
    cases hr : wres attempt with
    | error u =>
      simp only [set16Go, hr, List.cons_append, List.nil_append, List.mem_cons] at he
      rcases he with rfl | rfl | he
      · exact Or.inl rfl
      · exact Or.inr rfl
      · exact ih (attempt+1) e he
    | ok u =>
      by_cases hg : (get16Go a register (rresp attempt) 0 numR).1 = value
      · simp only [set16Go, hr, if_pos hg, List.append_assoc, List.cons_append,
          List.nil_append, List.mem_cons, List.mem_append] at he
        rcases he with rfl | rfl | rfl | he
        · exact Or.inl rfl
        · exact Or.inr rfl
        · exact Or.inl rfl
        · exact Or.inl (get16Go_no_writes a register (rresp attempt) 0 numR e he)
      · simp only [set16Go, hr, if_neg hg, List.append_assoc, List.cons_append,
          List.nil_append, List.mem_cons, List.mem_append] at he
        rcases he with rfl | rfl | rfl | he | he
        · exact Or.inl rfl
        · exact Or.inr rfl
        · exact Or.inl rfl
        · exact Or.inl (get16Go_no_writes a register (rresp attempt) 0 numR e he)
        · exact ih (attempt+1) e he

lemma set16Go_frames (a register : Nat) (value : Int) (vals : List Nat) (wres : WResp)
    (rresp : Nat → Resp) (numR attempt fuel : Nat) :
    ∀ f ∈ writesOf (set16Go a register value vals wres rresp numR attempt fuel).2,
      f = (a, register,
        [vals.getD 0 0, vals.getD 1 0, calcCRC register [vals.getD 0 0, vals.getD 1 0] 2]) := by
  intro f hf
  unfold writesOf at hf
  rcases List.mem_filterMap.mp hf with ⟨e, he, hsome⟩
  rcases set16Go_events a register value vals wres rresp numR attempt fuel e he with hn | rfl
  · rw [hn] at hsome
    cases hsome
  · rw [← calcCRC_two_getD]
    cases hsome
    rfl

lemma get8Go_accept (a register : Nat) (resp : Resp) (attempt fuel : Nat)
    (read : List Nat) (hresp : resp attempt = Except.ok read) :
    (read.getD 1 0 = calcCRC register read 1 →
      get8Go a register resp attempt (fuel+1)
        = (read.getD 0 0, [Ev.openBus, Ev.rblock a register 2, Ev.closeBus]))
    ∧ (read.getD 1 0 ≠ calcCRC register read 1 →
      (get8Go a register resp attempt (fuel+1)).1
        = (get8Go a register resp (attempt+1) fuel).1) := by
  constructor
  · intro hc
    simp only [get8Go, hresp, if_pos hc]
  · intro hc
    simp only [get8Go, hresp, if_neg hc]

lemma get16Go_accept (a register : Nat) (resp : Resp) (attempt fuel : Nat)
    (read : List Nat) (hresp : resp attempt = Except.ok read) :
    (read.getD 2 0 = calcCRC register read 2 →
      get16Go a register resp attempt (fuel+1)
        = (decode16 (read.getD 0 0) (read.getD 1 0),
            [Ev.openBus, Ev.rblock a register 3, Ev.closeBus]))
    ∧ (read.getD 2 0 ≠ calcCRC register read 2 →
      (get16Go a register resp attempt (fuel+1)).1
        = (get16Go a register resp (attempt+1) fuel).1) := by
  constructor
  · intro hc
    simp only [get16Go, hresp, if_pos hc]
  · intro hc
    simp only [get16Go, hresp, if_neg hc]

/-- Claim C2: every frame the engine places on the bus for a register
write is the encoded payload followed by exactly the checksum over
`[register] + payload` (`set_8bit_value` sends `[value,
calcCRC(register, [value], 1)]`; `set_16bit_value` sends `[lo, hi,
calcCRC(register, [lo, hi], 2)]`), and a frame read off the bus is
accepted — a decoded value is returned instead of proceeding to the next
attempt — exactly when its trailing checksum byte equals the checksum
over `[register] + received payload`. -/
theorem C2_frame_checksum_invariant :
    (∀ a register value wres rresp numR attempt fuel,
      ∀ f ∈ writesOf (set8Go a register value wres rresp numR attempt fuel).2,
        f = (a, register, [value, calcCRC register [value] 1]))
    ∧ (∀ a register value vals wres rresp numR attempt fuel,
      ∀ f ∈ writesOf (set16Go a register value vals wres rresp numR attempt fuel).2,
        f = (a, register,
          [vals.getD 0 0, vals.getD 1 0,
            calcCRC register [vals.getD 0 0, vals.getD 1 0] 2]))
    ∧ (∀ a register resp attempt fuel read, resp attempt = Except.ok read →
      (read.getD 1 0 = calcCRC register read 1 →
        get8Go a register resp attempt (fuel+1)
          = (read.getD 0 0, [Ev.openBus, Ev.rblock a register 2, Ev.closeBus]))
      ∧ (read.getD 1 0 ≠ calcCRC register read 1 →
        (get8Go a register resp attempt (fuel+1)).1
          = (get8Go a register resp (attempt+1) fuel).1))
    ∧ (∀ a register resp attempt fuel read, resp attempt = Except.ok read →
      (read.getD 2 0 = calcCRC register read 2 →
        get16Go a register resp attempt (fuel+1)
          = (decode16 (read.getD 0 0) (read.getD 1 0),
              [Ev.openBus, Ev.rblock a register 3, Ev.closeBus]))
      ∧ (read.getD 2 0 ≠ calcCRC register read 2 →
        (get16Go a register resp attempt (fuel+1)).1
          = (get16Go a register resp (attempt+1) fuel).1)) :=
  ⟨fun a register value wres rresp numR attempt fuel =>
      set8Go_frames a register value wres rresp numR attempt fuel,
    fun a register value vals wres rresp numR attempt fuel =>
      set16Go_frames a register value vals wres rresp numR attempt fuel,
    fun a register resp attempt fuel read h =>
      get8Go_accept a register resp attempt fuel read h,
    fun a register resp attempt fuel read h =>
      get16Go_accept a register resp attempt fuel read h⟩

/-- Witness for C2: the accepted-frame branch of `get_8bit_value` at a
concrete frame with a correct trailing checksum. -/
theorem C2_frame_checksum_invariant_witness :
    get8Go 8 0x21 (fun _ => Except.ok [30, calcCRC 0x21 [30] 1]) 0 1
      = (30, [Ev.openBus, Ev.rblock 8 0x21 2, Ev.closeBus]) :=
  (C2_frame_checksum_invariant.2.2.1 8 0x21
      (fun _ => Except.ok [30, calcCRC 0x21 [30] 1]) 0 0
      [30, calcCRC 0x21 [30] 1] rfl).1 (by decide)

/-- Claim C3 counterexample: `set_8bit_value` performs no range check,
so the out-of-range value 300 does NOT fail before any bus transaction:
with `num_retries = 2`, two sessions are opened and two block-write
attempts carrying the raw value 300 are made (the failure is retried). -/
theorem C3_no_8bit_range_check_counterexample :
    255 < 300 ∧
      countOpens (set_8bit_value ⟨1, 8, 0, 2⟩ 0x21 300 (fun _ => Except.error ())
        (fun _ _ => Except.error ())).2 = 2 ∧
      writesOf (set_8bit_value ⟨1, 8, 0, 2⟩ 0x21 300 (fun _ => Except.error ())
        (fun _ _ => Except.error ())).2
        = [(8, 0x21, [300, calcCRC 0x21 [300] 1]),
            (8, 0x21, [300, calcCRC 0x21 [300] 1])] := by
  decide

/-- Claim C3 (amended): only the 16-bit write fails immediately with an
encoding error for values outside its representable range
`[-32768, 32767]`: `value.to_bytes(2, 'little', signed=True)` raises
`OverflowError` before the retry loop, so no bus session is opened and
no write attempt is made, and the failure is not retried.  (The 8-bit
write performs no range check; see the counterexample.) -/
theorem C3_range_check_16bit (h : Handle) (register : Nat) (v : Int) (wres : WResp)
    (rresp : Nat → Resp) (hv : v < -32768 ∨ 32767 < v) :
    set_16bit_value h register v wres rresp = none := by
  unfold set_16bit_value encode16
  rw [if_neg (by rintro ⟨h1, h2⟩; rcases hv with hv | hv <;> omega)]

/-- Witness for the amended C3 at the concrete out-of-range value
40000. -/
theorem C3_range_check_16bit_witness :
    set_16bit_value ⟨1, 8, 0, 3⟩ 0x31 40000 (fun _ => Except.ok ())
      (fun _ _ => Except.error ()) = none :=
  C3_range_check_16bit ⟨1, 8, 0, 3⟩ 0x31 40000 (fun _ => Except.ok ())
    (fun _ _ => Except.error ()) (Or.inr (by norm_num))

/-- Claim C4 (code bug in the source): when the block read or block
write raises a transport error, `bus.close()` is skipped — the `except`
handler only logs — so the session opened for that attempt is NOT closed
before the next attempt.  Concretely, with `num_retries = 1` and a
transport that raises on the block read, `get_16bit_value`'s trace is
exactly one open and one read request with no close; likewise
`set_8bit_value`'s trace on a raising block write has no close. -/
theorem C4_session_not_closed_on_transport_error :
    (get_16bit_value ⟨1, 8, 0, 1⟩ 0x11 (fun _ => Except.error ())).2
        = [Ev.openBus, Ev.rblock 8 0x11 3]
      ∧ countOpens (get_16bit_value ⟨1, 8, 0, 1⟩ 0x11 (fun _ => Except.error ())).2 = 1
      ∧ countCloses (get_16bit_value ⟨1, 8, 0, 1⟩ 0x11 (fun _ => Except.error ())).2 = 0
      ∧ (set_8bit_value ⟨1, 8, 0, 1⟩ 0x21 30 (fun _ => Except.error ())
          (fun _ _ => Except.error ())).2
        = [Ev.openBus, Ev.wblock 8 0x21 [30, calcCRC 0x21 [30] 1]]
      ∧ countCloses (set_8bit_value ⟨1, 8, 0, 1⟩ 0x21 30 (fun _ => Except.error ())
          (fun _ _ => Except.error ())).2 = 0 := by
  decide

lemma set8Go_true_readback (a register value : Nat) (wres : WResp) (rresp : Nat → Resp)
    (numR attempt fuel : Nat)
    (h : (set8Go a register value wres rresp numR attempt fuel).1 = true) :
    ∃ k, (get8Go a register (rresp k) 0 numR).1 = value := by
  induction fuel generalizing attempt with
  | zero => simp [set8Go] at h
  | succ fuel ih =>
    cases hr : wres attempt with
    | error u =>
      simp only [set8Go, hr] at h
      exact ih (attempt+1) h
    | ok u =>
      by_cases hg : (get8Go a register (rresp attempt) 0 numR).1 = value
      · exact ⟨attempt, hg⟩
      · simp only [set8Go, hr, if_neg hg] at h
        exact ih (attempt+1) h

lemma set16Go_true_readback (a register : Nat) (value : Int) (vals : List Nat)
    (wres : WResp) (rresp : Nat → Resp) (numR attempt fuel : Nat)
    (h : (set16Go a register value vals wres rresp numR attempt fuel).1 = true) :
    ∃ k, (get16Go a register (rresp k) 0 numR).1 = value := by
  induction fuel generalizing attempt with
  | zero => simp [set16Go] at h
  | succ fuel ih =>
    cases hr : wres attempt with
    | error u =>
      simp only [set16Go, hr] at h
      exact ih (attempt+1) h
    | ok u =>
      by_cases hg : (get16Go a register (rresp attempt) 0 numR).1 = value
      · exact ⟨attempt, hg⟩
      · simp only [set16Go, hr, if_neg hg] at h
        exact ih (attempt+1) h

/-- Claim C5: a write call returns `True` only if some read-back of the
same register returned a decoded value equal to the original value; and
concretely `write_8(0x21, 30)` against a transport that accepts the
write and answers the read-back with `30` and a correct checksum returns
`True` on the first attempt (a single block write in the trace). -/
theorem C5_write_verified_by_readback :
    (∀ a register value wres rresp numR attempt fuel,
      (set8Go a register value wres rresp numR attempt fuel).1 = true →
      ∃ k, (get8Go a register (rresp k) 0 numR).1 = value)
    ∧ (∀ a register value vals wres rresp numR attempt fuel,
      (set16Go a register value vals wres rresp numR attempt fuel).1 = true →
      ∃ k, (get16Go a register (rresp k) 0 numR).1 = value)
    ∧ set_8bit_value ⟨1, 8, 0, 3⟩ 0x21 30 (fun _ => Except.ok ())
        (fun _ _ => Except.ok [30, calcCRC 0x21 [30] 1])
      = (true, [Ev.openBus, Ev.wblock 8 0x21 [30, calcCRC 0x21 [30] 1], Ev.closeBus,
          Ev.openBus, Ev.rblock 8 0x21 2, Ev.closeBus]) :=
  ⟨fun a register value wres rresp numR attempt fuel h =>
      set8Go_true_readback a register value wres rresp numR attempt fuel h,
    fun a register value vals wres rresp numR attempt fuel h =>
      set16Go_true_readback a register value vals wres rresp numR attempt fuel h,
    by decide⟩

/-- Witness for C5: the only-if direction applied to the concrete
successful write scenario. -/
theorem C5_write_verified_by_readback_witness :
    ∃ k : Nat, k = k ∧ (get8Go 8 0x21 (fun _ => Except.ok [30, calcCRC 0x21 [30] 1]) 0 3).1 = 30 :=
  match C5_write_verified_by_readback.1 8 0x21 30 (fun _ => Except.ok ())
    (fun _ _ => Except.ok [30, calcCRC 0x21 [30] 1]) 3 0 3 (by decide) with
  | ⟨k, hk⟩ => ⟨k, rfl, hk⟩

lemma countReads_cons_open (tr : List Ev) :
    countReads (Ev.openBus :: tr) = countReads tr := by
  simp [countReads, List.countP_cons, isReadEv]

lemma countReads_cons_close (tr : List Ev) :
    countReads (Ev.closeBus :: tr) = countReads tr := by
  simp [countReads, List.countP_cons, isReadEv]

lemma countReads_cons_rblock (a r c : Nat) (tr : List Ev) :
    countReads (Ev.rblock a r c :: tr) = countReads tr + 1 := by
  simp [countReads, List.countP_cons, isReadEv]

lemma get8Go_allbad (a register : Nat) (resp : Resp)
    (hbad : ∀ k read, resp k = Except.ok read → read.getD 1 0 ≠ calcCRC register read 1)
    (fuel : Nat) :
    ∀ attempt, (get8Go a register resp attempt fuel).1 = 0xFFFF ∧
      countReads (get8Go a register resp attempt fuel).2 = fuel := by
  induction fuel with
  | zero => intro attempt; exact ⟨rfl, rfl⟩
  | succ fuel ih =>
    intro attempt
    cases hr : resp attempt with
    | error u =>
      simp only [get8Go, hr]
      refine ⟨(ih (attempt+1)).1, ?_⟩
      rw [countReads_cons_open, countReads_cons_rblock, (ih (attempt+1)).2]
    | ok read =>
      have hc : read.getD 1 0 ≠ calcCRC register read 1 := hbad attempt read hr
      simp only [get8Go, hr, if_neg hc]
      refine ⟨(ih (attempt+1)).1, ?_⟩
      rw [countReads_cons_open, countReads_cons_rblock, countReads_cons_close,
        (ih (attempt+1)).2]

/-- Claim C6: if the transport answers every attempt with a frame whose
trailing checksum byte does not match the checksum over `[register] +
payload`, then `get_8bit_value` performs exactly `num_retries` block
read attempts — not more, not fewer — and returns the `0xFFFF` failure
marker. -/
theorem C6_retry_exhaustion (h : Handle) (register : Nat) (resp : Resp)
    (hn : 1 ≤ h.num_retries)
    (hbad : ∀ k read, resp k = Except.ok read → read.getD 1 0 ≠ calcCRC register read 1) :
    (get_8bit_value h register resp).1 = 0xFFFF ∧
      countReads (get_8bit_value h register resp).2 = h.num_retries := by
  unfold get_8bit_value
  exact get8Go_allbad h.address register resp hbad h.num_retries 0

/-- Witness for C6: a transport that always answers `[5, 0]`, whose
trailing byte 0 is not the correct checksum, with two retries. -/
theorem C6_retry_exhaustion_witness :
    (get_8bit_value ⟨1, 8, 0, 2⟩ 0x21 (fun _ => Except.ok [5, 0])).1 = 0xFFFF ∧
      countReads (get_8bit_value ⟨1, 8, 0, 2⟩ 0x21 (fun _ => Except.ok [5, 0])).2 = 2 :=
  C6_retry_exhaustion ⟨1, 8, 0, 2⟩ 0x21 (fun _ => Except.ok [5, 0]) (by norm_num)
    (by
      intro k read hk
      injection hk with h1
      subst h1
      decide)

/-- Claim C7: the value codec round-trips.  For every signed 16-bit
value, decoding the little-endian wire bytes produced by encoding it
yields the value again; the 8-bit codec (raw byte on the wire) likewise
round-trips on every byte. -/
theorem C7_codec_roundtrip :
    (∀ v : Int, -32768 ≤ v → v ≤ 32767 →
      ∃ b0 b1 : Nat, encode16 v = some [b0, b1] ∧ b0 < 256 ∧ b1 < 256 ∧
        decode16 b0 b1 = v)
    ∧ (∀ v : Nat, v < 256 → decode8 (encode8 v) = v) := by
  constructor
  · intro v h1 h2
    refine ⟨(v % 65536).toNat % 256, (v % 65536).toNat / 256, ?_, ?_, ?_, ?_⟩
    · unfold encode16
      rw [if_pos ⟨h1, h2⟩]
    · omega
    · omega
    · unfold decode16
      split <;> push_cast <;> omega
  · intro v hv
    rfl

/-- Witness for C7 at the concrete values `-12345` (16-bit) and `7`
(8-bit). -/
theorem C7_codec_roundtrip_witness :
    (∃ b0 b1 : Nat, encode16 (-12345) = some [b0, b1] ∧ b0 < 256 ∧ b1 < 256 ∧
        decode16 b0 b1 = -12345)
    ∧ decode8 (encode8 7) = 7 :=
  ⟨C7_codec_roundtrip.1 (-12345) (by norm_num) (by norm_num),
    C7_codec_roundtrip.2 7 (by norm_num)⟩

/-- Claim C8: every read operation's retries-exhausted failure marker
lies outside the range of legitimately decodable values of that
operation — `0xFFFF` outside `[0, 255]` for `get_8bit_value`,
`0xFFFFFFFF` outside `[-32768, 32767]` for `get_16bit_value`,
`0xFFFFFFFFFFFF` outside `[0, 2^24 - 1]` for `get_uptime` — and each
retry loop returns exactly that marker on exhaustion, so a failure never
aliases a successfully decoded reading. -/
theorem C8_failure_markers_distinct :
    (∀ read : List Nat, (∀ x ∈ read, x < 256) →
      decode8 read < 256 ∧ decode8 read ≠ 0xFFFF)
    ∧ (∀ b0 b1 : Nat, b0 < 256 → b1 < 256 →
      -32768 ≤ decode16 b0 b1 ∧ decode16 b0 b1 ≤ 32767 ∧ decode16 b0 b1 ≠ 0xFFFFFFFF)
    ∧ (∀ b0 b1 b2 : Nat, b0 < 256 → b1 < 256 → b2 < 256 →
      decodeUptime b0 b1 b2 < 2 ^ 24 ∧ decodeUptime b0 b1 b2 ≠ 0xFFFFFFFFFFFF)
    ∧ (∀ a register : Nat, ∀ resp : Resp, ∀ attempt : Nat,
      get8Go a register resp attempt 0 = (0xFFFF, [])
      ∧ get16Go a register resp attempt 0 = (0xFFFFFFFF, [])
      ∧ getUptimeGo a resp attempt 0 = (0xFFFFFFFFFFFF, [])) := by
  refine ⟨?_, ?_, ?_, ?_⟩
  · intro read hb
    unfold decode8
    cases read with
    | nil => constructor <;> simp [List.getD]
    | cons x t =>
      have hx := hb x (List.mem_cons_self x t)
      rw [List.getD_cons_zero]
      omega
  · intro b0 b1 h0 h1
    unfold decode16
    split <;> refine ⟨?_, ?_, ?_⟩ <;> push_cast <;> omega
  · intro b0 b1 b2 h0 h1 h2
    unfold decodeUptime
    have hpow : (2 : Nat) ^ 24 = 16777216 := by norm_num
    rw [hpow]
    omega
  · intro a register resp attempt
    exact ⟨rfl, rfl, rfl⟩

/-- Witness for C8 at concrete bytes. -/
theorem C8_failure_markers_distinct_witness :
    (decode8 [7] < 256 ∧ decode8 [7] ≠ 0xFFFF)
    ∧ (-32768 ≤ decode16 52 18 ∧ decode16 52 18 ≤ 32767 ∧ decode16 52 18 ≠ 0xFFFFFFFF)
    ∧ (decodeUptime 1 2 3 < 2 ^ 24 ∧ decodeUptime 1 2 3 ≠ 0xFFFFFFFFFFFF)
    ∧ (get8Go 8 0x21 (fun _ => Except.error ()) 0 0 = (0xFFFF, [])
      ∧ get16Go 8 0x11 (fun _ => Except.error ()) 0 0 = (0xFFFFFFFF, [])
      ∧ getUptimeGo 8 (fun _ => Except.error ()) 0 0 = (0xFFFFFFFFFFFF, [])) :=
  ⟨C8_failure_markers_distinct.1 [7] (by decide),
    C8_failure_markers_distinct.2.1 52 18 (by norm_num) (by norm_num),
    C8_failure_markers_distinct.2.2.1 1 2 3 (by norm_num) (by norm_num) (by norm_num),
    C8_failure_markers_distinct.2.2.2 8 0x21 (fun _ => Except.error ()) 0⟩

set_option maxRecDepth 8192 in
/-- Claim C9: when the peripheral answers the block read of register
`0x11` with `[0x34, 0x12]` followed by the checksum
`calcCRC 0x11 [0x34, 0x12] 2`, `get_16bit_value 0x11` returns the
signed 16-bit value `0x1234 = 4660` on that (first) attempt. -/
theorem C9_read16_concrete :
    get_16bit_value ⟨1, 8, 0, 3⟩ 0x11
        (fun _ => Except.ok [0x34, 0x12, calcCRC 0x11 [0x34, 0x12] 2])
      = (4660, [Ev.openBus, Ev.rblock 8 0x11 3, Ev.closeBus]) := by
  decide

lemma calcCRC_four_getD (register : Nat) (vals : List Nat) :
    calcCRC register vals 4
      = calcCRC register [vals.getD 0 0, vals.getD 1 0, vals.getD 2 0, vals.getD 3 0] 4 := by
  unfold calcCRC
  simp [List.range_succ]

/-- Claim C10: when `get_version` accepts a frame `[b0, b1, b2, b3, c]`
(that is, `c` equals the checksum over `[0x80, b0, b1, b2, b3]`), it
returns `(major, minor, patch) = (b2, b1, b0)` — the version travels
patch-byte first, and the fourth payload byte `b3` is included in the
checksum computation but discarded from the result. -/
theorem C10_version_byte_order (a b0 b1 b2 b3 c : Nat) (resp : Resp) (k fuel : Nat)
    (hresp : resp k = Except.ok [b0, b1, b2, b3, c])
    (hc : c = calcCRC REG_VERSION [b0, b1, b2, b3] 4) :
    (getVersionGo a resp k (fuel+1)).1 = (b2, b1, b0) := by
  have hcond : ([b0, b1, b2, b3, c] : List Nat).getD 4 0
      = calcCRC REG_VERSION [b0, b1, b2, b3, c] 4 := by
    rw [calcCRC_four_getD REG_VERSION [b0, b1, b2, b3, c]]
    simp only [List.getD_cons_zero, List.getD_cons_succ]
    exact hc
  simp only [getVersionGo, hresp, if_pos hcond]
  simp only [List.getD_cons_zero, List.getD_cons_succ]

/-- Witness for C10 at the concrete frame `[3, 2, 1, 4]` with its
correct checksum: the returned triplet is `(1, 2, 3)`. -/
theorem C10_version_byte_order_witness :
    (getVersionGo 8
        (fun _ => Except.ok [3, 2, 1, 4, calcCRC REG_VERSION [3, 2, 1, 4] 4]) 0 1).1
      = (1, 2, 3) :=
  C10_version_byte_order 8 3 2 1 4 (calcCRC REG_VERSION [3, 2, 1, 4] 4)
    (fun _ => Except.ok [3, 2, 1, 4, calcCRC REG_VERSION [3, 2, 1, 4] 4]) 0 0 rfl rfl

/-- Witness for C1 at the concrete input `a = 0x11`, `p = [0x34, 0x12]`. -/
theorem C1_calcCRC_matches_spec_witness :
    calcCRC 0x11 [0x34, 0x12] (List.length [0x34, 0x12]) = specCRC 0x11 [0x34, 0x12] ∧
      calcCRC 0x11 [0x34, 0x12] (List.length [0x34, 0x12]) < 256 :=
  C1_calcCRC_matches_spec 0x11 [0x34, 0x12] (by norm_num) (by decide)

end ATTiny
